import Mathlib

/-!
Verification development for the SpacemiT audio core: the sample-rate
conversion engine (src/resampler.cpp), the capture-side chunk accumulator
(AudioCapture::Impl::onAudioData), and the scalar sample-format conversions
(float to int16 on the capture path, int16 to float in
AudioOutputStream::writeInt16).

Modelling conventions:
- C++ float/double arithmetic is embedded as exact arithmetic over ℚ.
- size_t subtraction (which wraps) is embedded as sub64 with an explicit
  mod 2^64; size_t casts of nonnegative doubles truncate, which on
  nonnegative values is the floor.
- Reads through raw pointers are embedded as List.getD with default 0;
  under the in-bounds conditions proved below the default is never used.
- Byte buffers are lists of ℕ (byte values); PCM16 samples are stored
  little-endian as on the RISC-V targets this code is built for.
-/

/-- Wrapping 64-bit subtraction, the semantics of size_t subtraction `a - b`
for small `b`. -/
def sub64 (a b : ℕ) : ℕ := (a + 2 ^ 64 - b) % 2 ^ 64

/-- Embedding of a C++ cast from int to size_t. -/
def castSizeT (i : ℤ) : ℕ := (i % (2 ^ 64 : ℤ)).toNat

/-- Embedding of a C++ cast from size_t to a 32-bit int: two's-complement
wrap, the effect of static_cast<int>(result.size()) in resampler_process
when the value does not fit. -/
def castInt (n : ℕ) : ℤ :=
  if n % 2 ^ 32 < 2 ^ 31 then ((n % 2 ^ 32 : ℕ) : ℤ)
  else ((n % 2 ^ 32 : ℕ) : ℤ) - 2 ^ 32

/-- Resampling method enum from audio_resampler.hpp. -/
inductive ResampleMethod where
  | LINEAR_UPSAMPLE
  | LINEAR_DOWNSAMPLE
  | SRC_SINC_BEST_QUALITY
  | SRC_SINC_MEDIUM_QUALITY
  | SRC_SINC_FASTEST
  | SRC_ZERO_ORDER_HOLD
  | SRC_LINEAR
deriving DecidableEq

namespace Resampler

/-- Resampler::Config from audio_resampler.hpp (rates and channels are C++
ints, embedded as ℤ). -/
structure Config where
  input_sample_rate : ℤ
  output_sample_rate : ℤ
  channels : ℤ
  method : ResampleMethod
deriving DecidableEq

/-- Conversion ratio, computed once per configuration:
output_sample_rate / input_sample_rate in double precision (embedded
exactly in ℚ). -/
def ratio (cfg : Config) : ℚ :=
  (cfg.output_sample_rate : ℚ) / (cfg.input_sample_rate : ℚ)

/-- Resampler::methodRequiresLibsamplerate from resampler.cpp. -/
def methodRequiresLibsamplerate : ResampleMethod → Bool
  | .LINEAR_UPSAMPLE => false
  | .LINEAR_DOWNSAMPLE => false
  | _ => true

/-- Resampler::initialize from resampler.cpp, for the build without
libsamplerate (the always-available configuration the spec's deterministic
fallback describes): validates rates and channels, and rewrites a method
that would require libsamplerate to the linear method matching the
direction of the ratio. Returns none exactly when validation fails. -/
def init (cfg : Config) : Option Config :=
  if cfg.input_sample_rate ≤ 0 ∨ cfg.output_sample_rate ≤ 0 then none
  else if cfg.channels ≤ 0 then none
  else if methodRequiresLibsamplerate cfg.method then
    some { cfg with
      method := if 1 < ratio cfg then ResampleMethod.LINEAR_UPSAMPLE
                else ResampleMethod.LINEAR_DOWNSAMPLE }
  else some cfg

/-- Source index and fraction for output frame i of the scalar linear
upsample loop in resampler.cpp, including the boundary clamp computed on
size_t: src_pos = i / ratio, src_idx = (size_t)src_pos, frac = src_pos -
src_idx; if src_idx >= num_frames - 1 then src_idx = num_frames - 2 and
frac = 1.0. -/
def upsampleIdxFrac (rat : ℚ) (num_frames i : ℕ) : ℕ × ℚ :=
  let src_pos : ℚ := (i : ℚ) / rat
  let src_idx : ℕ := (⌊src_pos⌋).toNat
  let frac : ℚ := src_pos - (src_idx : ℚ)
  if sub64 num_frames 1 ≤ src_idx then (sub64 num_frames 2, 1)
  else (src_idx, frac)

/-- Resampler::linearUpsample (scalar path) from resampler.cpp. The C++
writes output[i * channels + ch] for ch in [0, channels) and i in
[0, output_frames); position k therefore holds the value for frame k /
channels and channel k % channels. -/
def linearUpsample (channels : ℕ) (rat : ℚ) (input : List ℚ) : List ℚ :=
  let num_frames := input.length / channels
  let output_frames := (⌈(num_frames : ℚ) * rat⌉).toNat
  (List.range (output_frames * channels)).map fun k =>
    let i := k / channels
    let ch := k % channels
    let r := upsampleIdxFrac rat num_frames i
    let sample0 := input.getD (r.1 * channels + ch) 0
    let sample1 := input.getD ((r.1 + 1) * channels + ch) 0
    sample0 * (1 - r.2) + sample1 * r.2

/-- Resampler::linearDownsample (scalar path) from resampler.cpp: same
interpolation, but when src_idx >= num_frames - 1 the last input sample of
the channel is written directly, with no blending. -/
def linearDownsample (channels : ℕ) (rat : ℚ) (input : List ℚ) : List ℚ :=
  let num_frames := input.length / channels
  let output_frames := (⌈(num_frames : ℚ) * rat⌉).toNat
  (List.range (output_frames * channels)).map fun k =>
    let i := k / channels
    let ch := k % channels
    let src_pos : ℚ := (i : ℚ) / rat
    let src_idx : ℕ := (⌊src_pos⌋).toNat
    let frac : ℚ := src_pos - (src_idx : ℚ)
    if sub64 num_frames 1 ≤ src_idx then
      input.getD (sub64 num_frames 1 * channels + ch) 0
    else
      let sample0 := input.getD (src_idx * channels + ch) 0
      let sample1 := input.getD ((src_idx + 1) * channels + ch) 0
      sample0 * (1 - frac) + sample1 * frac

/-- Resampler::linearUpsample_RVV from the vector-accelerated translation
unit: numerically identical to the scalar loop, except that it returns the
zero-initialized output vector when output_frames == 0 or num_frames < 2. -/
def linearUpsample_RVV (channels : ℕ) (rat : ℚ) (input : List ℚ) : List ℚ :=
  let num_frames := input.length / channels
  let output_frames := (⌈(num_frames : ℚ) * rat⌉).toNat
  if output_frames = 0 ∨ num_frames < 2 then
    List.replicate (output_frames * channels) 0
  else
    (List.range (output_frames * channels)).map fun k =>
      let i := k / channels
      let ch := k % channels
      let r := upsampleIdxFrac rat num_frames i
      let sample0 := input.getD (r.1 * channels + ch) 0
      let sample1 := input.getD ((r.1 + 1) * channels + ch) 0
      sample0 * (1 - r.2) + sample1 * r.2

/-- Resampler::process from resampler.cpp (build without libsamplerate):
lazy initialization, empty input short-circuit, same-rate copy, then
dispatch on the selected method with the ratio-directed default fallback. -/
def process (cfg : Config) (input : List ℚ) : List ℚ :=
  match init cfg with
  | none => []
  | some c =>
    if input.length = 0 then []
    else if c.input_sample_rate = c.output_sample_rate then input
    else
      match c.method with
      | .LINEAR_UPSAMPLE => linearUpsample c.channels.toNat (ratio c) input
      | .LINEAR_DOWNSAMPLE => linearDownsample c.channels.toNat (ratio c) input
      | _ =>
        if 1 < ratio c then linearUpsample c.channels.toNat (ratio c) input
        else linearDownsample c.channels.toNat (ratio c) input

/-- Resampler::estimateOutputSize from resampler.cpp:
ceil(input_size * output_rate / input_rate) + 256. -/
def estimateOutputSize (input_size : ℕ) (input_rate output_rate : ℤ) : ℕ :=
  (⌈(input_size : ℚ) * ((output_rate : ℚ) / (input_rate : ℚ))⌉).toNat + 256

end Resampler

/-- C API resampler_process from resampler.cpp, for a successfully created
handle holding configuration cfg. The output buffer is modelled as the list
of floats currently in the caller's destination; std::copy overwrites its
first result.length entries. The produced count is compared with and
returned through static_cast<int>(result.size()), modelled by castInt, so
result sizes of 2^31 samples or more wrap. Pointer-validity checks are not
modelled; the input_samples argument is the length of the input list. -/
def resampler_process (cfg : Resampler.Config) (input : List ℚ)
    (output : List ℚ) (output_capacity : ℤ) : ℤ × List ℚ :=
  if (input.length : ℤ) ≤ 0 then (-1, output)
  else
    let result := Resampler.process cfg input
    if output_capacity < castInt result.length then (-1, output)
    else (castInt result.length, result ++ output.drop result.length)

/-- Capture-path float to int16 conversion from
AudioCapture::Impl::onAudioData: two sequential clamps to [-1, 1], then
multiplication by 32767 and a static_cast to int16_t, which truncates the
value toward zero (floor for nonnegative values, ceiling for negative
ones). -/
def floatToInt16 (x : ℚ) : ℤ :=
  let s : ℚ := if 1 < x then 1 else if x < -1 then -1 else x
  let y : ℚ := s * 32767
  if 0 ≤ y then ⌊y⌋ else ⌈y⌉

/-- Playback-side int16 to float conversion from
AudioOutputStream::writeInt16: sample / 32768.0f (exact: the quotient of an
int16 by 2^15 is representable in single precision). -/
def int16ToFloat (v : ℤ) : ℚ := (v : ℚ) / 32768

/-- Spec-side conversion for claim C5, written from the claim's words:
clamp x to [-1, 1], then round(x * 32767) to the nearest integer. -/
def specFloatToInt16Round (x : ℚ) : ℤ :=
  round (min 1 (max (-1) x) * 32767)

/-- Spec-side conversion for the amended claim C5: clamp x to [-1, 1], then
truncate x * 32767 toward zero (drop the fractional part, moving toward
zero: floor of the magnitude, with the sign reattached). -/
def specFloatToInt16Trunc (x : ℚ) : ℤ :=
  let y : ℚ := min 1 (max (-1) x) * 32767
  if 0 ≤ y then ⌊y⌋ else -⌊-y⌋

/-- Little-endian byte pair of an int16 value, as laid out in memory when
onAudioData stores an int16_t into the byte buffer on a little-endian
target. -/
def i16ToBytes (v : ℤ) : List ℕ :=
  let u := (v % 65536).toNat
  [u % 256, u / 256]

/-- PCM16 byte image of a block of float samples: each sample converted by
floatToInt16 and stored as two little-endian bytes, in sample order. -/
def pcmBytes : List ℚ → List ℕ
  | [] => []
  | x :: xs => i16ToBytes (floatToInt16 x) ++ pcmBytes xs

/-- Chunk-relevant state of AudioCapture::Impl: whether a consumer callback
is registered, the configured chunk size in bytes (a C++ int), and the
accumulation byte buffer. -/
structure CaptureState where
  has_callback : Bool
  chunk_size : ℤ
  buffer : List ℕ
deriving DecidableEq

/-- While-loop of onAudioData: while buffer.size() >= (size_t)chunk_size,
deliver the first chunk_size bytes to the consumer and erase them from the
front. Returns the delivered chunks in order together with the remaining
buffer. The C++ loop does not terminate when chunk_size == 0; this model is
only used with positive chunk sizes, where it agrees with the source. -/
def drainChunks (cs : ℕ) (buf : List ℕ) : List (List ℕ) × List ℕ :=
  if _h : 0 < cs ∧ cs ≤ buf.length then
    (buf.take cs :: (drainChunks cs (buf.drop cs)).1,
      (drainChunks cs (buf.drop cs)).2)
  else ([], buf)
termination_by buf.length
decreasing_by
  all_goals simp only [List.length_drop]
  all_goals omega

/-- AudioCapture::Impl::onAudioData: early return when no consumer callback
is registered; otherwise convert the delivered samples to PCM16 bytes,
append them to the buffer, and drain complete chunks to the consumer.
Returns the chunks delivered during this call and the new state. -/
def onAudioData (st : CaptureState) (data : List ℚ) :
    List (List ℕ) × CaptureState :=
  if st.has_callback = false then ([], st)
  else
    let buf := st.buffer ++ pcmBytes data
    let r := drainChunks (castSizeT st.chunk_size) buf
    (r.1, { st with buffer := r.2 })

/-- Buffer-relevant effect of AudioCapture::Start: resolve a nonpositive
chunk_size argument from the global configuration value g_chunk, store the
resolved chunk size, and clear the accumulation buffer. Start delivers
nothing to the consumer. -/
def captureStart (st : CaptureState) (g_chunk : ℤ) (chunk_size : ℤ) :
    CaptureState :=
  { st with
    chunk_size := if chunk_size ≤ 0 then g_chunk else chunk_size,
    buffer := [] }

/-- Buffer-relevant effect of AudioCapture::Stop: the stream is stopped but
the accumulation buffer is not touched and nothing is delivered. -/
def captureStop (st : CaptureState) : CaptureState := st

/-- Buffer-relevant effect of AudioCapture::Close: the stream is closed and
the accumulation buffer is cleared; nothing is delivered. -/
def captureClose (st : CaptureState) : CaptureState :=
  { st with buffer := [] }

/-- Spec-side per-element value for claim C1, written from the claim's
words: p = i / ratio, idx = floor(p), frac = p - idx; when
idx >= num_frames - 1 the output equals the last input sample of the
channel, otherwise input[idx] * (1 - frac) + input[idx + 1] * frac. -/
def claimUpsampleValue (channels : ℕ) (rat : ℚ) (input : List ℚ)
    (num_frames i ch : ℕ) : ℚ :=
  let p : ℚ := (i : ℚ) / rat
  let idx : ℕ := (⌊p⌋).toNat
  let frac : ℚ := p - (idx : ℚ)
  if num_frames - 1 ≤ idx then
    input.getD ((num_frames - 1) * channels + ch) 0
  else
    input.getD (idx * channels + ch) 0 * (1 - frac) +
      input.getD ((idx + 1) * channels + ch) 0 * frac

/-- Spec-side per-element value for claim C2, written from the claim's
words: output frames whose source index reaches num_frames - 1 take the
last input sample of the channel directly, all others use the blended
interpolation formula. -/
def claimDownsampleValue (channels : ℕ) (rat : ℚ) (input : List ℚ)
    (num_frames i ch : ℕ) : ℚ :=
  let p : ℚ := (i : ℚ) / rat
  let idx : ℕ := (⌊p⌋).toNat
  let frac : ℚ := p - (idx : ℚ)
  if num_frames - 1 ≤ idx then
    input.getD ((num_frames - 1) * channels + ch) 0
  else
    input.getD (idx * channels + ch) 0 * (1 - frac) +
      input.getD ((idx + 1) * channels + ch) 0 * frac

/-! Helper lemmas. -/

theorem sub64_eq {n k : ℕ} (hk : k ≤ n) (h64 : n < 2 ^ 64) : sub64 n k = n - k := by
  unfold sub64
  have h : n + 2 ^ 64 - k = (n - k) + 2 ^ 64 := by omega
  rw [h, Nat.add_mod_right]
  exact Nat.mod_eq_of_lt (by omega)

theorem getD_map_range {α : Type} (f : ℕ → α) (k j : ℕ) (d : α) (h : j < k) :
    ((List.range k).map f).getD j d = f j := by
  rw [List.getD_eq_getElem?_getD, List.getElem?_map, List.getElem?_range h]
  rfl

theorem flat_div {i c ch : ℕ} (hc : c < ch) : (i * ch + c) / ch = i := by
  rw [Nat.mul_comm i ch, Nat.mul_add_div (by omega), Nat.div_eq_of_lt hc,
    Nat.add_zero]

theorem flat_mod {i c ch : ℕ} (hc : c < ch) : (i * ch + c) % ch = c := by
  rw [Nat.mul_comm i ch, Nat.mul_add_mod, Nat.mod_eq_of_lt hc]

theorem flat_lt {i c of ch : ℕ} (hi : i < of) (hc : c < ch) :
    i * ch + c < of * ch := by
  have h1 : i * ch + c < (i + 1) * ch := by
    have : (i + 1) * ch = i * ch + ch := by ring
    omega
  have h2 : (i + 1) * ch ≤ of * ch := Nat.mul_le_mul_right ch hi
  omega

/-- Unfolding equation for upsampleIdxFrac with its let bindings expanded. -/
theorem upsampleIdxFrac_def (rat : ℚ) (n i : ℕ) :
    Resampler.upsampleIdxFrac rat n i =
      if sub64 n 1 ≤ (⌊(i : ℚ) / rat⌋).toNat then (sub64 n 2, 1)
      else ((⌊(i : ℚ) / rat⌋).toNat,
        (i : ℚ) / rat - (((⌊(i : ℚ) / rat⌋).toNat : ℕ) : ℚ)) := rfl

/-- Claim C10: for input blocks of at least 2 frames, every source frame
index read by the scalar linear upsample loop (the clamped src_idx and
src_idx + 1) lies within the input frame bounds, and the vectorized
variant separately guards num_frames < 2 by returning the zero-filled
output vector. -/
theorem C10_index_safety :
    (∀ (rat : ℚ) (n i : ℕ), 2 ≤ n → n < 2 ^ 64 →
      (Resampler.upsampleIdxFrac rat n i).1 ≤ n - 2 ∧
      (Resampler.upsampleIdxFrac rat n i).1 + 1 ≤ n - 1) ∧
    (∀ (channels : ℕ) (rat : ℚ) (input : List ℚ),
      input.length / channels < 2 →
      Resampler.linearUpsample_RVV channels rat input =
        List.replicate
          ((⌈((input.length / channels : ℕ) : ℚ) * rat⌉).toNat * channels) 0) := by
  constructor
  · intro rat n i h2 h64
    have e1 : sub64 n 1 = n - 1 := sub64_eq (by omega) h64
    have e2 : sub64 n 2 = n - 2 := sub64_eq (by omega) h64
    rw [upsampleIdxFrac_def, e1, e2]
    by_cases h : n - 1 ≤ (⌊(i : ℚ) / rat⌋).toNat
    · rw [if_pos h]
      dsimp only
      omega
    · rw [if_neg h]
      dsimp only
      omega
  · intro channels rat input h
    unfold Resampler.linearUpsample_RVV
    rw [if_pos (Or.inr h)]

/-- Witness for C10 at rat = 2, n = 2, i = 0. -/
theorem C10_index_safety_witness :
    2 ≤ 2 ∧ 2 < 2 ^ 64 ∧
      ((Resampler.upsampleIdxFrac 2 2 0).1 ≤ 0 ∧
       (Resampler.upsampleIdxFrac 2 2 0).1 + 1 ≤ 1) :=
  ⟨le_refl 2, by norm_num, C10_index_safety.1 2 2 0 (le_refl 2) (by norm_num)⟩

/-- Claim C1: for ratio > 1 and at least 2 input frames, the scalar linear
upsample path produces ceil(num_frames * ratio) frames, and each output
element equals the claim's interpolation formula: blend of input[idx] and
input[idx + 1] by frac = i / ratio - idx, with the boundary clamp
idx = num_frames - 2, frac = 1.0 making the output equal the last input
sample of the channel. -/
theorem C1_upsample_formula (channels : ℕ) (rat : ℚ) (input : List ℚ)
    (hch : 0 < channels) (hrat : 1 < rat) (hn : 2 ≤ input.length / channels)
    (h64 : input.length < 2 ^ 64) :
    (Resampler.linearUpsample channels rat input).length =
      (⌈((input.length / channels : ℕ) : ℚ) * rat⌉).toNat * channels ∧
    ∀ i ch, i < (⌈((input.length / channels : ℕ) : ℚ) * rat⌉).toNat →
      ch < channels →
      (Resampler.linearUpsample channels rat input).getD (i * channels + ch) 0 =
        claimUpsampleValue channels rat input (input.length / channels) i ch := by
  have hn64 : input.length / channels < 2 ^ 64 :=
    lt_of_le_of_lt (Nat.div_le_self _ _) h64
  have e1 : sub64 (input.length / channels) 1 = input.length / channels - 1 :=
    sub64_eq (by omega) hn64
  have e2 : sub64 (input.length / channels) 2 = input.length / channels - 2 :=
    sub64_eq (by omega) hn64
  constructor
  · simp [Resampler.linearUpsample]
  · intro i ch hi hc
    simp only [Resampler.linearUpsample]
    rw [getD_map_range _ _ _ _ (flat_lt hi hc)]
    simp only [flat_div hc, flat_mod hc]
    rw [upsampleIdxFrac_def, e1, e2]
    simp only [claimUpsampleValue]
    split_ifs with h
    · dsimp only
      have h21 : input.length / channels - 2 + 1 =
          input.length / channels - 1 := by omega
      rw [h21]
      ring
    · rfl

/-- Witness for C1: channels = 1, rat = 2, input = [0, 1], i = 1, ch = 0.
Output frame 1 sits halfway between input frames 0 and 1. -/
theorem C1_upsample_formula_witness :
    0 < 1 ∧ 1 < (2 : ℚ) ∧ 2 ≤ ([(0 : ℚ), 1].length / 1) ∧
      ([(0 : ℚ), 1].length < 2 ^ 64) ∧
      (Resampler.linearUpsample 1 2 [(0 : ℚ), 1]).length =
        (⌈(([(0 : ℚ), 1].length / 1 : ℕ) : ℚ) * 2⌉).toNat * 1 :=
  ⟨Nat.one_pos, by norm_num, by norm_num, by norm_num,
    (C1_upsample_formula 1 2 [(0 : ℚ), 1] Nat.one_pos (by norm_num)
      (by norm_num) (by norm_num)).1⟩

/-- Amended claim C2: for ratio < 1 and at least 2 input frames, the scalar
linear downsample path outputs, at any output frame whose source index idx
reaches num_frames - 1, the last input sample of the channel directly, and
the blended interpolation formula everywhere else. (The original claim's
consequence that the final output frame of a downsampled ramp equals the
last input sample is refuted by C2_cex_final_frame.) -/
theorem C2_downsample_formula (channels : ℕ) (rat : ℚ) (input : List ℚ)
    (hch : 0 < channels) (hrat : rat < 1) (hn : 2 ≤ input.length / channels)
    (h64 : input.length < 2 ^ 64) :
    (Resampler.linearDownsample channels rat input).length =
      (⌈((input.length / channels : ℕ) : ℚ) * rat⌉).toNat * channels ∧
    ∀ i ch, i < (⌈((input.length / channels : ℕ) : ℚ) * rat⌉).toNat →
      ch < channels →
      (Resampler.linearDownsample channels rat input).getD (i * channels + ch) 0 =
        claimDownsampleValue channels rat input (input.length / channels) i ch := by
  have hn64 : input.length / channels < 2 ^ 64 :=
    lt_of_le_of_lt (Nat.div_le_self _ _) h64
  have e1 : sub64 (input.length / channels) 1 = input.length / channels - 1 :=
    sub64_eq (by omega) hn64
  constructor
  · simp [Resampler.linearDownsample]
  · intro i ch hi hc
    simp only [Resampler.linearDownsample]
    rw [getD_map_range _ _ _ _ (flat_lt hi hc)]
    simp only [flat_div hc, flat_mod hc]
    rw [e1]
    simp only [claimDownsampleValue]

/-- Witness for C2 at channels = 1, rat = 1/2, input = [0, 1, 2, 3],
i = 0, ch = 0. -/
theorem C2_downsample_formula_witness :
    0 < 1 ∧ ((1 : ℚ)/2) < 1 ∧ 2 ≤ ([(0 : ℚ), 1, 2, 3].length / 1) ∧
      ([(0 : ℚ), 1, 2, 3].length < 2 ^ 64) ∧
      (Resampler.linearDownsample 1 ((1 : ℚ)/2) [(0 : ℚ), 1, 2, 3]).length =
        (⌈(([(0 : ℚ), 1, 2, 3].length / 1 : ℕ) : ℚ) * ((1 : ℚ)/2)⌉).toNat * 1 :=
  ⟨Nat.one_pos, by norm_num, by norm_num, by norm_num,
    (C2_downsample_formula 1 ((1 : ℚ)/2) [(0 : ℚ), 1, 2, 3] Nat.one_pos
      (by norm_num) (by norm_num) (by norm_num)).1⟩

/-- Counterexample to claim C2's final clause: downsampling the 4-frame mono
ramp [0, 1, 2, 3] from 16000 Hz to 8000 Hz (ratio 1/2) yields the output
[0, 2]; the final output frame is 2, which is not the last input sample 3 —
no boundary branch fires at the final output frame, so it is the blended
formula value input[2], not the last sample. -/
theorem C2_cex_final_frame :
    Resampler.linearDownsample 1 ((8000 : ℚ) / 16000) [0, 1, 2, 3] = [0, 2] ∧
    (2 : ℚ) ≠ 3 := by
  constructor
  · simp only [Resampler.linearDownsample]
    have hlen : ([(0 : ℚ), 1, 2, 3] : List ℚ).length / 1 = 4 := by norm_num
    rw [hlen]
    have hce : ⌈((4 : ℕ) : ℚ) * ((8000 : ℚ) / 16000)⌉ = 2 := by
      apply Int.ceil_eq_iff.mpr
      constructor <;> norm_num
    rw [hce]
    have hrange : List.range (Int.toNat 2 * 1) = [0, 1] := by decide
    rw [hrange]
    have h41 : sub64 4 1 = 3 := by decide
    simp only [List.map_cons, List.map_nil, h41]
    have ht : Int.toNat 2 = 2 := rfl
    norm_num [Rat.floor_def, ht]
  · norm_num

theorem linearUpsample_length (channels : ℕ) (rat : ℚ) (input : List ℚ) :
    (Resampler.linearUpsample channels rat input).length =
      (⌈((input.length / channels : ℕ) : ℚ) * rat⌉).toNat * channels := by
  simp [Resampler.linearUpsample]

theorem linearDownsample_length (channels : ℕ) (rat : ℚ) (input : List ℚ) :
    (Resampler.linearDownsample channels rat input).length =
      (⌈((input.length / channels : ℕ) : ℚ) * rat⌉).toNat * channels := by
  simp [Resampler.linearDownsample]

theorem ceil_eval {q : ℚ} {z : ℤ} (h1 : (z : ℚ) - 1 < q) (h2 : q ≤ (z : ℚ)) :
    ⌈q⌉ = z :=
  Int.ceil_eq_iff.mpr ⟨by exact_mod_cast h1, h2⟩

theorem interp_length_le (N ch : ℕ) (rat : ℚ) (hch : 0 < ch)
    (hch2 : ch ≤ 256) (hrat : 0 ≤ rat) :
    (⌈((N / ch : ℕ) : ℚ) * rat⌉).toNat * ch ≤ (⌈(N : ℚ) * rat⌉).toNat + 256 := by
  set m := N / ch with hm
  have hmN : m * ch ≤ N := Nat.div_mul_le_self N ch
  have hA0 : 0 ≤ ⌈(m : ℚ) * rat⌉ := Int.ceil_nonneg (by positivity)
  have hB0 : 0 ≤ ⌈(N : ℚ) * rat⌉ := Int.ceil_nonneg (by positivity)
  have hc1 : (⌈(m : ℚ) * rat⌉ : ℚ) < (m : ℚ) * rat + 1 := Int.ceil_lt_add_one _
  have hc2 : (N : ℚ) * rat ≤ (⌈(N : ℚ) * rat⌉ : ℚ) := Int.le_ceil _
  have hmulc : ((m : ℚ) * rat) * ch ≤ (N : ℚ) * rat := by
    have hcast : ((m * ch : ℕ) : ℚ) ≤ (N : ℚ) := by exact_mod_cast hmN
    calc ((m : ℚ) * rat) * ch = ((m * ch : ℕ) : ℚ) * rat := by push_cast; ring
      _ ≤ (N : ℚ) * rat := mul_le_mul_of_nonneg_right hcast hrat
  have hchq : (ch : ℚ) ≤ 256 := by exact_mod_cast hch2
  have hch0 : (0 : ℚ) < (ch : ℚ) := by exact_mod_cast hch
  have hstep : (⌈(m : ℚ) * rat⌉ : ℚ) * ch < ((m : ℚ) * rat + 1) * ch :=
    mul_lt_mul_of_pos_right hc1 hch0
  have hfin : (⌈(m : ℚ) * rat⌉ : ℚ) * ch < (⌈(N : ℚ) * rat⌉ : ℚ) + 256 := by
    have hexp : ((m : ℚ) * rat + 1) * ch = ((m : ℚ) * rat) * ch + ch := by ring
    linarith
  have key : ⌈(m : ℚ) * rat⌉ * (ch : ℤ) ≤ ⌈(N : ℚ) * rat⌉ + 256 := by
    have : (⌈(m : ℚ) * rat⌉ * (ch : ℤ) : ℚ) < ((⌈(N : ℚ) * rat⌉ + 256 : ℤ) : ℚ) := by
      push_cast
      linarith
    exact_mod_cast this.le
  have e1 : (((⌈(m : ℚ) * rat⌉).toNat : ℕ) : ℤ) = ⌈(m : ℚ) * rat⌉ :=
    Int.toNat_of_nonneg hA0
  have e2 : (((⌈(N : ℚ) * rat⌉).toNat : ℕ) : ℤ) = ⌈(N : ℚ) * rat⌉ :=
    Int.toNat_of_nonneg hB0
  zify
  rw [e1, e2]
  exact key

theorem init_preserves (cfg : Resampler.Config)
    (h1 : 0 < cfg.input_sample_rate) (h2 : 0 < cfg.output_sample_rate)
    (h3 : 0 < cfg.channels) :
    ∃ c, Resampler.init cfg = some c ∧
      c.input_sample_rate = cfg.input_sample_rate ∧
      c.output_sample_rate = cfg.output_sample_rate ∧
      c.channels = cfg.channels := by
  unfold Resampler.init
  rw [if_neg (by omega), if_neg (by omega)]
  by_cases h : Resampler.methodRequiresLibsamplerate cfg.method
  · rw [if_pos h]
    exact ⟨_, rfl, rfl, rfl, rfl⟩
  · rw [if_neg h]
    exact ⟨cfg, rfl, rfl, rfl, rfl⟩

/-- Amended claim C3: estimateOutputSize is ceil(N * R_out / R_in) + 256 by
construction, and for every input the number of samples produced by process
never exceeds the estimate provided the configured channel count is at most
256; C3_cex_estimate_exceeded shows the bound fails for larger channel
counts, so the unrestricted claim is false. -/
theorem C3_estimate_bound (cfg : Resampler.Config) (input : List ℚ)
    (h1 : 0 < cfg.input_sample_rate) (h2 : 0 < cfg.output_sample_rate)
    (h3 : 0 < cfg.channels) (h4 : cfg.channels ≤ 256) :
    (Resampler.process cfg input).length ≤
      Resampler.estimateOutputSize input.length
        cfg.input_sample_rate cfg.output_sample_rate := by
  obtain ⟨c, hc, e1, e2, e3⟩ := init_preserves cfg h1 h2 h3
  have hratio : Resampler.ratio c =
      (cfg.output_sample_rate : ℚ) / (cfg.input_sample_rate : ℚ) := by
    rw [Resampler.ratio, e1, e2]
  have hrat0 : 0 ≤ Resampler.ratio c := by
    rw [hratio]
    positivity
  have hchpos : 0 < c.channels.toNat := by omega
  have hch256 : c.channels.toNat ≤ 256 := by omega
  have est_def : Resampler.estimateOutputSize input.length
      cfg.input_sample_rate cfg.output_sample_rate =
      (⌈(input.length : ℚ) * Resampler.ratio c⌉).toNat + 256 := by
    rw [Resampler.estimateOutputSize, hratio]
  have hup : (Resampler.linearUpsample c.channels.toNat (Resampler.ratio c)
      input).length ≤ Resampler.estimateOutputSize input.length
        cfg.input_sample_rate cfg.output_sample_rate := by
    rw [linearUpsample_length, est_def]
    exact interp_length_le input.length c.channels.toNat _ hchpos hch256 hrat0
  have hdown : (Resampler.linearDownsample c.channels.toNat (Resampler.ratio c)
      input).length ≤ Resampler.estimateOutputSize input.length
        cfg.input_sample_rate cfg.output_sample_rate := by
    rw [linearDownsample_length, est_def]
    exact interp_length_le input.length c.channels.toNat _ hchpos hch256 hrat0
  unfold Resampler.process
  rw [hc]
  dsimp only
  by_cases hz : input.length = 0
  · rw [if_pos hz]
    simp
  · rw [if_neg hz]
    by_cases heq : c.input_sample_rate = c.output_sample_rate
    · rw [if_pos heq]
      have hqone : (cfg.output_sample_rate : ℚ) / (cfg.input_sample_rate : ℚ) = 1 := by
        rw [← e1, ← e2, heq]
        exact div_self (by exact_mod_cast (by omega : c.output_sample_rate ≠ 0))
      rw [Resampler.estimateOutputSize, hqone]
      simp
    · rw [if_neg heq]
      have hboth : (if 1 < Resampler.ratio c then
          Resampler.linearUpsample c.channels.toNat (Resampler.ratio c) input
          else Resampler.linearDownsample c.channels.toNat (Resampler.ratio c)
            input).length ≤
          Resampler.estimateOutputSize input.length
            cfg.input_sample_rate cfg.output_sample_rate := by
        by_cases hgt : 1 < Resampler.ratio c
        · rw [if_pos hgt]
          exact hup
        · rw [if_neg hgt]
          exact hdown
      cases hm : c.method
      all_goals dsimp only
      · exact hup
      · exact hdown
      · exact hboth
      · exact hboth
      · exact hboth
      · exact hboth
      · exact hboth

/-- Witness for C3 at a same-rate 2-channel configuration with 4 samples. -/
theorem C3_estimate_bound_witness :
    (0 : ℤ) < 16000 ∧ (0 : ℤ) < 16000 ∧ (0 : ℤ) < 2 ∧ (2 : ℤ) ≤ 256 ∧
      (Resampler.process ⟨16000, 16000, 2, ResampleMethod.LINEAR_UPSAMPLE⟩
          [(0 : ℚ), 0, 0, 0]).length ≤
        Resampler.estimateOutputSize 4 16000 16000 :=
  ⟨by norm_num, by norm_num, by norm_num, by norm_num,
    C3_estimate_bound ⟨16000, 16000, 2, ResampleMethod.LINEAR_UPSAMPLE⟩
      [(0 : ℚ), 0, 0, 0] (by norm_num) (by norm_num) (by norm_num) (by norm_num)⟩

/-- Counterexample to claim C3's universal bound over all channel counts:
with 514 channels, rates 32000 to 48000 (ratio 3/2) and 1542 input samples
(3 frames), linearUpsample produces 514 * ceil(4.5) = 2570 samples, but
estimateOutputSize returns ceil(1542 * 3/2) + 256 = 2569, so actual
production exceeds the estimate. -/
theorem C3_cex_estimate_exceeded :
    (Resampler.process ⟨32000, 48000, 514, ResampleMethod.LINEAR_UPSAMPLE⟩
        (List.replicate 1542 (0 : ℚ))).length = 2570 ∧
    Resampler.estimateOutputSize 1542 32000 48000 = 2569 ∧
    ¬((2570 : ℕ) ≤ 2569) := by
  refine ⟨?_, ?_, by norm_num⟩
  · have hinit : Resampler.init
        ⟨32000, 48000, 514, ResampleMethod.LINEAR_UPSAMPLE⟩ =
        some ⟨32000, 48000, 514, ResampleMethod.LINEAR_UPSAMPLE⟩ := by
      unfold Resampler.init
      norm_num [Resampler.methodRequiresLibsamplerate]
    unfold Resampler.process
    rw [hinit]
    dsimp only
    have hlen : (List.replicate 1542 (0 : ℚ)).length = 1542 :=
      List.length_replicate 1542 0
    have hne0 : ¬((List.replicate 1542 (0 : ℚ)).length = 0) := by
      rw [hlen]
      omega
    have hne1 : ¬((32000 : ℤ) = 48000) := by norm_num
    rw [if_neg hne0, if_neg hne1]
    rw [linearUpsample_length]
    have h514 : (514 : ℤ).toNat = 514 := rfl
    rw [h514, hlen]
    have hdiv : (1542 : ℕ) / 514 = 3 := by norm_num
    have hr : Resampler.ratio ⟨32000, 48000, 514, ResampleMethod.LINEAR_UPSAMPLE⟩ =
        ((48000 : ℤ) : ℚ) / ((32000 : ℤ) : ℚ) := rfl
    rw [hdiv, hr]
    have hce : ⌈((3 : ℕ) : ℚ) * (((48000 : ℤ) : ℚ) / ((32000 : ℤ) : ℚ))⌉ = 5 :=
      ceil_eval (by norm_num) (by norm_num)
    rw [hce]
    rfl
  · unfold Resampler.estimateOutputSize
    have hce : ⌈((1542 : ℕ) : ℚ) * (((48000 : ℤ) : ℚ) / ((32000 : ℤ) : ℚ))⌉ = 2313 :=
      ceil_eval (by norm_num) (by norm_num)
    rw [hce]
    rfl

theorem floor_eval {q : ℚ} {z : ℤ} (h1 : (z : ℚ) ≤ q) (h2 : q < (z : ℚ) + 1) :
    ⌊q⌋ = z :=
  Int.floor_eq_iff.mpr ⟨h1, by exact_mod_cast h2⟩

/-- Counterexample to claim C5: at input 0.5 the capture-path conversion
computes static_cast of 0.5 * 32767 = 16383.5, which truncates to 16383,
while the claimed round(0.5 * 32767) is 16384. -/
theorem C5_cex_trunc_vs_round :
    floatToInt16 (1 / 2) = 16383 ∧ specFloatToInt16Round (1 / 2) = 16384 ∧
    floatToInt16 (1 / 2) ≠ specFloatToInt16Round (1 / 2) := by
  have h1 : floatToInt16 (1 / 2) = 16383 := by
    simp only [floatToInt16]
    have hna : ¬((1 : ℚ) < 1 / 2) := by norm_num
    have hnb : ¬((1 / 2 : ℚ) < -1) := by norm_num
    rw [if_neg hna, if_neg hnb]
    have hy : (0 : ℚ) ≤ (1 / 2 : ℚ) * 32767 := by norm_num
    rw [if_pos hy]
    have hf : ⌊(1 / 2 : ℚ) * 32767⌋ = 16383 :=
      floor_eval (by norm_num) (by norm_num)
    exact hf
  have h2 : specFloatToInt16Round (1 / 2) = 16384 := by
    unfold specFloatToInt16Round
    have hmm : min (1 : ℚ) (max (-1) (1 / 2)) = 1 / 2 := by norm_num
    rw [hmm, round_eq]
    have hf : ⌊(1 / 2 : ℚ) * 32767 + 1 / 2⌋ = 16384 :=
      floor_eval (by norm_num) (by norm_num)
    exact hf
  exact ⟨h1, h2, by rw [h1, h2]; norm_num⟩

/-- Amended claim C5: for every input sample x, the capture-path conversion
clamps x to [-1, 1] and then truncates x * 32767 toward zero (rather than
rounding to the nearest integer as originally claimed). -/
theorem C5_float_to_int16_trunc (x : ℚ) :
    floatToInt16 x = specFloatToInt16Trunc x := by
  unfold floatToInt16 specFloatToInt16Trunc
  have hclamp : (if 1 < x then (1 : ℚ) else if x < -1 then -1 else x) =
      min 1 (max (-1) x) := by
    by_cases h1 : 1 < x
    · rw [if_pos h1, max_eq_right (by linarith : (-1 : ℚ) ≤ x),
        min_eq_left h1.le]
    · rw [if_neg h1]
      push_neg at h1
      by_cases h2 : x < -1
      · rw [if_pos h2, max_eq_left h2.le,
          min_eq_right (by norm_num : (-1 : ℚ) ≤ 1)]
      · rw [if_neg h2]
        push_neg at h2
        rw [max_eq_right h2, min_eq_right h1]
  rw [hclamp]
  set y := min 1 (max (-1) x) * 32767 with hy
  by_cases hy0 : 0 ≤ y
  · rw [if_pos hy0, if_pos hy0]
  · rw [if_neg hy0, if_neg hy0, Int.floor_neg, neg_neg]

/-- Claim C6: for every representable int16 value v, converting to float by
the playback-side v / 32768 and back by the capture-side conversion yields
v, v + 1, or v - 1. -/
theorem C6_roundtrip (v : ℤ) (hlo : -32768 ≤ v) (hhi : v ≤ 32767) :
    floatToInt16 (int16ToFloat v) = v ∨
    floatToInt16 (int16ToFloat v) = v + 1 ∨
    floatToInt16 (int16ToFloat v) = v - 1 := by
  unfold floatToInt16 int16ToFloat
  have h32 : (0 : ℚ) < 32768 := by norm_num
  have hhiq : (v : ℚ) ≤ 32767 := by exact_mod_cast hhi
  have hloq : (-32768 : ℚ) ≤ (v : ℚ) := by exact_mod_cast hlo
  have hle1 : ¬(1 < (v : ℚ) / 32768) := by
    rw [not_lt, div_le_one h32]
    linarith
  have hgem1 : ¬((v : ℚ) / 32768 < -1) := by
    rw [not_lt, le_div_iff h32]
    linarith
  rw [if_neg hle1, if_neg hgem1]
  rcases lt_trichotomy v 0 with hneg | hzero | hpos
  · right; left
    have hvq : (v : ℚ) < 0 := by exact_mod_cast hneg
    have hyneg : (v : ℚ) / 32768 * 32767 < 0 :=
      mul_neg_of_neg_of_pos (div_neg_of_neg_of_pos hvq h32) (by norm_num)
    rw [if_neg (not_le.mpr hyneg)]
    apply ceil_eval
    · push_cast
      rw [div_mul_eq_mul_div, lt_div_iff h32]
      nlinarith
    · push_cast
      rw [div_mul_eq_mul_div, div_le_iff h32]
      nlinarith
  · left
    subst hzero
    rw [if_pos (by norm_num)]
    norm_num
  · right; right
    have hvq : (0 : ℚ) < (v : ℚ) := by exact_mod_cast hpos
    have hy0 : 0 ≤ (v : ℚ) / 32768 * 32767 :=
      le_of_lt (mul_pos (div_pos hvq h32) (by norm_num))
    rw [if_pos hy0]
    apply floor_eval
    · push_cast
      rw [div_mul_eq_mul_div, le_div_iff h32]
      nlinarith
    · push_cast
      rw [div_mul_eq_mul_div, div_lt_iff h32]
      nlinarith

/-- Witness for C6 at v = 100: the round trip gives 99 = v - 1, within the
claimed tolerance. -/
theorem C6_roundtrip_witness :
    (-32768 : ℤ) ≤ 100 ∧ (100 : ℤ) ≤ 32767 ∧
      (floatToInt16 (int16ToFloat 100) = 100 ∨
       floatToInt16 (int16ToFloat 100) = 100 + 1 ∨
       floatToInt16 (int16ToFloat 100) = 100 - 1) :=
  ⟨by norm_num, by norm_num, C6_roundtrip 100 (by norm_num) (by norm_num)⟩

theorem pcmBytes_length (data : List ℚ) :
    (pcmBytes data).length = 2 * data.length := by
  induction data with
  | nil => rfl
  | cons x xs ih =>
    simp only [pcmBytes, List.length_append, List.length_cons, ih, i16ToBytes,
      List.length_nil]
    omega

theorem castSizeT_eq {i : ℤ} (h1 : 0 < i) (h2 : i < 2 ^ 64) :
    castSizeT i = i.toNat := by
  unfold castSizeT
  rw [Int.emod_eq_of_lt h1.le h2]

theorem flatten_length_const {α : Type} (l : List (List α)) (k : ℕ)
    (h : ∀ c ∈ l, c.length = k) : l.flatten.length = l.length * k := by
  induction l with
  | nil => simp
  | cons c cs ih =>
    simp only [List.flatten_cons, List.length_append, List.length_cons]
    rw [h c (List.mem_cons_self c cs), ih (fun x hx => h x (List.mem_cons_of_mem c hx))]
    ring

theorem drainChunks_spec (cs : ℕ) (hcs : 0 < cs) (buf : List ℕ) :
    (drainChunks cs buf).1.flatten ++ (drainChunks cs buf).2 = buf ∧
    (∀ c ∈ (drainChunks cs buf).1, c.length = cs) ∧
    (drainChunks cs buf).2.length < cs ∧
    (drainChunks cs buf).1.length * cs + (drainChunks cs buf).2.length =
      buf.length := by
  generalize hn : buf.length = n
  induction n using Nat.strong_induction_on generalizing buf with
  | _ n ih =>
    rw [drainChunks]
    by_cases h : 0 < cs ∧ cs ≤ buf.length
    · rw [dif_pos h]
      have hlt : (buf.drop cs).length < n := by
        simp only [List.length_drop]
        omega
      obtain ⟨ih1, ih2, ih3, ih4⟩ := ih (buf.drop cs).length hlt (buf.drop cs) rfl
      refine ⟨?_, ?_, ih3, ?_⟩
      · simp only [List.flatten_cons]
        rw [List.append_assoc, ih1, List.take_append_drop]
      · intro c hcmem
        rcases List.mem_cons.mp hcmem with hceq | hcm
        · rw [hceq, List.length_take]
          omega
        · exact ih2 c hcm
      · simp only [List.length_cons, List.length_drop] at ih4 ⊢
        have hsm : ((drainChunks cs (buf.drop cs)).1.length + 1) * cs =
            (drainChunks cs (buf.drop cs)).1.length * cs + cs := by ring
        omega
    · rw [dif_neg h]
      refine ⟨by simp, by simp, ?_, ?_⟩
      · dsimp only
        omega
      · simp only [List.length_nil]
        omega

/-- Claim C4: every frame delivery with a registered consumer converts the
samples to PCM16 bytes, appends them at the tail, then drains complete
chunks from the front in FIFO order: the delivered chunks concatenated with
the remaining buffer reconstruct the old buffer followed by the new bytes
(no reordering, duplication, or loss), every delivered chunk is exactly
chunk_size bytes, and the remainder is under chunk_size. Consequently with
chunk_size 3200 and mono PCM16, deliveries of 2400 then 800 samples (4800
then 1600 bytes) produce exactly one 3200-byte chunk each with nothing left
buffered, and a single 50-sample (100-byte) delivery produces no chunk and
leaves 100 bytes buffered. -/
theorem C4_chunk_fifo :
    (∀ (st : CaptureState) (data : List ℚ), st.has_callback = true →
      0 < st.chunk_size → st.chunk_size < 2 ^ 64 →
      (onAudioData st data).1.flatten ++ (onAudioData st data).2.buffer =
        st.buffer ++ pcmBytes data ∧
      (∀ c ∈ (onAudioData st data).1, c.length = st.chunk_size.toNat) ∧
      (onAudioData st data).2.buffer.length < st.chunk_size.toNat ∧
      (onAudioData st data).2.has_callback = st.has_callback ∧
      (onAudioData st data).2.chunk_size = st.chunk_size) ∧
    (∀ d1 d2 : List ℚ, d1.length = 2400 → d2.length = 800 →
      (onAudioData ⟨true, 3200, []⟩ d1).1.length = 1 ∧
      (onAudioData (onAudioData ⟨true, 3200, []⟩ d1).2 d2).1.length = 1 ∧
      (∀ c ∈ (onAudioData ⟨true, 3200, []⟩ d1).1 ++
          (onAudioData (onAudioData ⟨true, 3200, []⟩ d1).2 d2).1,
        c.length = 3200) ∧
      (onAudioData (onAudioData ⟨true, 3200, []⟩ d1).2 d2).2.buffer = []) ∧
    (∀ d : List ℚ, d.length = 50 →
      (onAudioData ⟨true, 3200, []⟩ d).1 = [] ∧
      (onAudioData ⟨true, 3200, []⟩ d).2.buffer.length = 100) := by
  have partA : ∀ (st : CaptureState) (data : List ℚ), st.has_callback = true →
      0 < st.chunk_size → st.chunk_size < 2 ^ 64 →
      (onAudioData st data).1.flatten ++ (onAudioData st data).2.buffer =
        st.buffer ++ pcmBytes data ∧
      (∀ c ∈ (onAudioData st data).1, c.length = st.chunk_size.toNat) ∧
      (onAudioData st data).2.buffer.length < st.chunk_size.toNat ∧
      (onAudioData st data).2.has_callback = st.has_callback ∧
      (onAudioData st data).2.chunk_size = st.chunk_size := by
    intro st data hcb hpos h64
    unfold onAudioData
    rw [if_neg (by simp [hcb])]
    rw [castSizeT_eq hpos h64]
    have hcspos : 0 < st.chunk_size.toNat := by omega
    obtain ⟨s1, s2, s3, _⟩ :=
      drainChunks_spec st.chunk_size.toNat hcspos (st.buffer ++ pcmBytes data)
    exact ⟨s1, s2, s3, rfl, rfl⟩
  refine ⟨partA, ?_, ?_⟩
  · intro d1 d2 h1 h2
    have hA1 := partA ⟨true, 3200, []⟩ d1 rfl (by norm_num) (by norm_num)
    obtain ⟨f1, l1, r1, _, hcs1⟩ := hA1
    have htn : ((3200 : ℤ)).toNat = 3200 := rfl
    rw [htn] at l1 r1
    have hlen1 : (onAudioData ⟨true, 3200, []⟩ d1).1.length * 3200 +
        (onAudioData ⟨true, 3200, []⟩ d1).2.buffer.length = 4800 := by
      have := congrArg List.length f1
      simp only [List.length_append] at this
      rw [flatten_length_const _ 3200 l1] at this
      rw [this]
      show ((⟨true, 3200, []⟩ : CaptureState).buffer).length +
        (pcmBytes d1).length = 4800
      rw [pcmBytes_length, h1]
      rfl
    have hcount1 : (onAudioData ⟨true, 3200, []⟩ d1).1.length = 1 ∧
        (onAudioData ⟨true, 3200, []⟩ d1).2.buffer.length = 1600 := by
      constructor <;> omega
    have hA2 := partA (onAudioData ⟨true, 3200, []⟩ d1).2 d2
      (by
        have := (partA ⟨true, 3200, []⟩ d1 rfl (by norm_num) (by norm_num)).2.2.2.1
        rw [this])
      (by rw [hcs1]; norm_num) (by rw [hcs1]; norm_num)
    obtain ⟨f2, l2, r2, _, _⟩ := hA2
    rw [hcs1] at l2 r2
    rw [htn] at l2 r2
    have hlen2 : (onAudioData (onAudioData ⟨true, 3200, []⟩ d1).2 d2).1.length * 3200 +
        (onAudioData (onAudioData ⟨true, 3200, []⟩ d1).2 d2).2.buffer.length =
          3200 := by
      have := congrArg List.length f2
      simp only [List.length_append] at this
      rw [flatten_length_const _ 3200 l2] at this
      rw [this, pcmBytes_length, h2, hcount1.2]
    have hcount2 : (onAudioData (onAudioData ⟨true, 3200, []⟩ d1).2 d2).1.length = 1 ∧
        (onAudioData (onAudioData ⟨true, 3200, []⟩ d1).2 d2).2.buffer.length = 0 := by
      constructor <;> omega
    refine ⟨hcount1.1, hcount2.1, ?_, List.length_eq_zero.mp hcount2.2⟩
    intro c hcmem
    rcases List.mem_append.mp hcmem with hm | hm
    · exact l1 c hm
    · exact l2 c hm
  · intro d hd
    have hA := partA ⟨true, 3200, []⟩ d rfl (by norm_num) (by norm_num)
    obtain ⟨f, l, r, _, _⟩ := hA
    have htn : ((3200 : ℤ)).toNat = 3200 := rfl
    rw [htn] at l r
    have hlen : (onAudioData ⟨true, 3200, []⟩ d).1.length * 3200 +
        (onAudioData ⟨true, 3200, []⟩ d).2.buffer.length = 100 := by
      have := congrArg List.length f
      simp only [List.length_append] at this
      rw [flatten_length_const _ 3200 l] at this
      rw [this]
      show ((⟨true, 3200, []⟩ : CaptureState).buffer).length +
        (pcmBytes d).length = 100
      rw [pcmBytes_length, hd]
      rfl
    have hcount : (onAudioData ⟨true, 3200, []⟩ d).1.length = 0 ∧
        (onAudioData ⟨true, 3200, []⟩ d).2.buffer.length = 100 := by
      constructor <;> omega
    exact ⟨List.length_eq_zero.mp hcount.1, hcount.2⟩

/-- Witness for C4: the 100-byte scenario at an explicit 50-sample input. -/
theorem C4_chunk_fifo_witness :
    (List.replicate 50 (0 : ℚ)).length = 50 ∧
      (onAudioData ⟨true, 3200, []⟩ (List.replicate 50 (0 : ℚ))).1 = [] ∧
      (onAudioData ⟨true, 3200, []⟩ (List.replicate 50 (0 : ℚ))).2.buffer.length =
        100 :=
  ⟨by simp, C4_chunk_fifo.2.2 (List.replicate 50 (0 : ℚ)) (by simp)⟩

/-- Claim C7: after every frame-delivery cycle with a registered consumer the
buffered length is strictly below chunk_size; a stop followed by a restart
clears the buffer rather than flushing it (Start clears, Stop and Close
deliver nothing), so the behavior after a restart is independent of
whatever partial chunk was buffered before the stop. -/
theorem C7_buffer_invariant :
    (∀ (st : CaptureState) (data : List ℚ), st.has_callback = true →
      0 < st.chunk_size → st.chunk_size < 2 ^ 64 →
      (onAudioData st data).2.buffer.length < st.chunk_size.toNat) ∧
    (∀ (st : CaptureState) (g cs : ℤ),
      (captureStart (captureStop st) g cs).buffer = [] ∧
      (captureClose st).buffer = []) ∧
    (∀ (st st2 : CaptureState) (g cs : ℤ) (data : List ℚ),
      st.has_callback = st2.has_callback →
      onAudioData (captureStart (captureStop st) g cs) data =
        onAudioData (captureStart (captureStop st2) g cs) data) := by
  refine ⟨?_, ?_, ?_⟩
  · intro st data hcb hpos h64
    unfold onAudioData
    rw [if_neg (by simp [hcb])]
    rw [castSizeT_eq hpos h64]
    have hcspos : 0 < st.chunk_size.toNat := by omega
    exact (drainChunks_spec st.chunk_size.toNat hcspos
      (st.buffer ++ pcmBytes data)).2.2.1
  · intro st g cs
    exact ⟨rfl, rfl⟩
  · intro st st2 g cs data h
    have heq : captureStart (captureStop st) g cs =
        captureStart (captureStop st2) g cs := by
      unfold captureStart captureStop
      cases st
      cases st2
      simp only [CaptureState.mk.injEq] at h ⊢
      simp [h]
    rw [heq]

/-- Witness for C7 at an explicit state with a registered callback. -/
theorem C7_buffer_invariant_witness :
    (⟨true, 3200, [7]⟩ : CaptureState).has_callback = true ∧
      (0 : ℤ) < 3200 ∧ (3200 : ℤ) < 2 ^ 64 ∧
      (onAudioData ⟨true, 3200, [7]⟩ []).2.buffer.length < (3200 : ℤ).toNat :=
  ⟨rfl, by norm_num, by norm_num,
    C7_buffer_invariant.1 ⟨true, 3200, [7]⟩ [] rfl (by norm_num) (by norm_num)⟩

/-- Counterexample to claim C8's unconditional no-partial-write guarantee:
with rates 1 to 2 (ratio 2), one channel and 2^30 input samples, the
conversion result holds 2^31 samples. static_cast<int> wraps the count to
-2^31, so the capacity check against capacity 0 passes even though the
result is larger than the capacity, the call does not return the untouched
buffer, and std::copy performs the very write the claim rules out: the
destination list afterwards holds 2^31 samples instead of its original 0. -/
theorem C8_cex_int_wrap :
    (Resampler.process ⟨1, 2, 1, ResampleMethod.LINEAR_UPSAMPLE⟩
        (List.replicate 1073741824 (0 : ℚ))).length = 2147483648 ∧
    (0 : ℤ) < ((Resampler.process ⟨1, 2, 1, ResampleMethod.LINEAR_UPSAMPLE⟩
        (List.replicate 1073741824 (0 : ℚ))).length : ℤ) ∧
    (resampler_process ⟨1, 2, 1, ResampleMethod.LINEAR_UPSAMPLE⟩
        (List.replicate 1073741824 (0 : ℚ)) [] 0).1 = -2147483648 ∧
    ((resampler_process ⟨1, 2, 1, ResampleMethod.LINEAR_UPSAMPLE⟩
        (List.replicate 1073741824 (0 : ℚ)) [] 0).2).length = 2147483648 := by
  have hlenN : (List.replicate 1073741824 (0 : ℚ)).length = 1073741824 :=
    List.length_replicate 1073741824 0
  have hinit : Resampler.init ⟨1, 2, 1, ResampleMethod.LINEAR_UPSAMPLE⟩ =
      some ⟨1, 2, 1, ResampleMethod.LINEAR_UPSAMPLE⟩ := by
    unfold Resampler.init
    norm_num [Resampler.methodRequiresLibsamplerate]
  have hplen : (Resampler.process ⟨1, 2, 1, ResampleMethod.LINEAR_UPSAMPLE⟩
      (List.replicate 1073741824 (0 : ℚ))).length = 2147483648 := by
    unfold Resampler.process
    rw [hinit]
    dsimp only
    have hne0 : ¬((List.replicate 1073741824 (0 : ℚ)).length = 0) := by
      rw [hlenN]
      omega
    have hne1 : ¬((1 : ℤ) = 2) := by norm_num
    rw [if_neg hne0, if_neg hne1]
    rw [linearUpsample_length]
    have h1 : (1 : ℤ).toNat = 1 := rfl
    rw [h1, hlenN]
    have hdiv : (1073741824 : ℕ) / 1 = 1073741824 := Nat.div_one 1073741824
    rw [hdiv]
    have hr : Resampler.ratio ⟨1, 2, 1, ResampleMethod.LINEAR_UPSAMPLE⟩ =
        ((2 : ℤ) : ℚ) / ((1 : ℤ) : ℚ) := rfl
    rw [hr]
    have hce : ⌈((1073741824 : ℕ) : ℚ) * (((2 : ℤ) : ℚ) / ((1 : ℤ) : ℚ))⌉ =
        2147483648 :=
      ceil_eval (by norm_num) (by norm_num)
    rw [hce]
    rfl
  have hcast : castInt 2147483648 = -2147483648 := by
    unfold castInt
    norm_num
  have h0 : ¬(((List.replicate 1073741824 (0 : ℚ)).length : ℤ) ≤ 0) := by
    rw [hlenN]
    norm_num
  have hnc : ¬((0 : ℤ) < (-2147483648 : ℤ)) := by norm_num
  refine ⟨hplen, by rw [hplen]; norm_num, ?_, ?_⟩
  · unfold resampler_process
    dsimp only
    rw [if_neg h0, hplen, hcast, if_neg hnc]
  · unfold resampler_process
    dsimp only
    rw [if_neg h0, hplen, hcast, if_neg hnc]
    have hdd : List.drop 2147483648 ([] : List ℚ) = [] := List.drop_nil
    rw [hdd, List.append_nil]
    dsimp only
    exact hplen

/-- Amended claim C8: in the fixed-capacity C entry point, for calls that
actually convert (positive input length) and whose conversion result holds
fewer than 2^31 samples (so the produced count survives the
static_cast<int> used by the capacity check), a result larger than the
caller-provided capacity makes the call return the -1 sentinel and leave
the output buffer untouched (no partial write), and a result that fits is
copied in full with the produced sample count returned. For 2^31 samples
or more the cast wraps and the guarantee fails (C8_cex_int_wrap); the
zero-length case is claim C9. -/
theorem C8_fixed_capacity (cfg : Resampler.Config) (input output : List ℚ)
    (cap : ℤ) (hpos : 0 < input.length)
    (hsize : (Resampler.process cfg input).length < 2 ^ 31) :
    (cap < ((Resampler.process cfg input).length : ℤ) →
      resampler_process cfg input output cap = (-1, output)) ∧
    (((Resampler.process cfg input).length : ℤ) ≤ cap →
      resampler_process cfg input output cap =
        (((Resampler.process cfg input).length : ℤ),
          Resampler.process cfg input ++
            output.drop (Resampler.process cfg input).length)) := by
  have hcast : castInt (Resampler.process cfg input).length =
      ((Resampler.process cfg input).length : ℤ) := by
    unfold castInt
    have hm : (Resampler.process cfg input).length % 2 ^ 32 =
        (Resampler.process cfg input).length :=
      Nat.mod_eq_of_lt (by omega)
    rw [hm, if_pos hsize]
  have h0 : ¬((input.length : ℤ) ≤ 0) := by
    have hq : (0 : ℤ) < (input.length : ℤ) := by exact_mod_cast hpos
    omega
  constructor
  · intro hover
    unfold resampler_process
    dsimp only
    rw [if_neg h0, hcast, if_pos hover]
  · intro hfit
    unfold resampler_process
    dsimp only
    rw [if_neg h0, hcast, if_neg (not_lt.mpr hfit)]

/-- Witness for C8: converting 2 mono samples from 8000 to 16000 Hz produces
4 samples (well below 2^31), which overflows a capacity of 0, so the call
returns -1 and the empty output buffer is untouched. -/
theorem C8_fixed_capacity_witness :
    0 < ([(0 : ℚ), 0] : List ℚ).length ∧
      (Resampler.process ⟨8000, 16000, 1, ResampleMethod.LINEAR_UPSAMPLE⟩
        [(0 : ℚ), 0]).length < 2 ^ 31 ∧
      resampler_process ⟨8000, 16000, 1, ResampleMethod.LINEAR_UPSAMPLE⟩
        [(0 : ℚ), 0] [] 0 = (-1, []) := by
  have hlen4 : (Resampler.process ⟨8000, 16000, 1, ResampleMethod.LINEAR_UPSAMPLE⟩
      [(0 : ℚ), 0]).length = 4 := by
    have hinit : Resampler.init ⟨8000, 16000, 1, ResampleMethod.LINEAR_UPSAMPLE⟩ =
        some ⟨8000, 16000, 1, ResampleMethod.LINEAR_UPSAMPLE⟩ := by
      unfold Resampler.init
      norm_num [Resampler.methodRequiresLibsamplerate]
    unfold Resampler.process
    rw [hinit]
    dsimp only
    have hne0 : ¬(([(0 : ℚ), 0] : List ℚ).length = 0) := by norm_num
    have hne1 : ¬((8000 : ℤ) = 16000) := by norm_num
    rw [if_neg hne0, if_neg hne1]
    rw [linearUpsample_length]
    have h1 : (1 : ℤ).toNat = 1 := rfl
    have hlen2 : ([(0 : ℚ), 0] : List ℚ).length = 2 := rfl
    rw [h1, hlen2]
    have hdiv : (2 : ℕ) / 1 = 2 := rfl
    rw [hdiv]
    have hr : Resampler.ratio ⟨8000, 16000, 1, ResampleMethod.LINEAR_UPSAMPLE⟩ =
        ((16000 : ℤ) : ℚ) / ((8000 : ℤ) : ℚ) := rfl
    rw [hr]
    have hce : ⌈((2 : ℕ) : ℚ) * (((16000 : ℤ) : ℚ) / ((8000 : ℤ) : ℚ))⌉ = 4 :=
      ceil_eval (by norm_num) (by norm_num)
    rw [hce]
    rfl
  refine ⟨by norm_num, by rw [hlen4]; norm_num, ?_⟩
  apply (C8_fixed_capacity ⟨8000, 16000, 1, ResampleMethod.LINEAR_UPSAMPLE⟩
    [(0 : ℚ), 0] [] 0 (by norm_num) (by rw [hlen4]; norm_num)).1
  rw [hlen4]
  norm_num

/-- Counterexample to claim C9: the fixed-capacity entry point
resampler_process rejects zero-length input with the -1 error sentinel
instead of returning an empty output, for any configuration and capacity
(shown at rates 16000 to 8000, 1 channel, capacity 100). -/
theorem C9_cex_zero_input_sentinel :
    resampler_process ⟨16000, 8000, 1, ResampleMethod.LINEAR_DOWNSAMPLE⟩
        [] [] 100 = (-1, []) ∧ (-1 : ℤ) < 0 := by
  constructor
  · unfold resampler_process
    rw [if_pos (by norm_num)]
  · norm_num

/-- Amended claim C9: zero-length input is returned as an empty output (not
an error) by the single-shot Resampler::process, for every configuration;
the fixed-capacity C entry point resampler_process instead reports -1 on
zero-length input (its argument check treats input_samples <= 0 as an
invalid call) while still writing nothing to the output buffer. -/
theorem C9_zero_input (cfg : Resampler.Config) (output : List ℚ) (cap : ℤ) :
    Resampler.process cfg [] = [] ∧
    resampler_process cfg [] output cap = (-1, output) := by
  constructor
  · unfold Resampler.process
    cases Resampler.init cfg with
    | none => rfl
    | some c =>
      dsimp only
      have hz : ([] : List ℚ).length = 0 := rfl
      rw [if_pos hz]
  · unfold resampler_process
    rw [if_pos (by norm_num)]
